import Mathlib

/-!
Verification of the aggregator engine (`Aggregator.aggregate`, the path
descriptor resolver `collectPathsAndValues` and the injection logic) against
its natural-language specification.

The JavaScript data tree is embedded as the inductive `Value` below; lodash
helpers used by the source (`_.get`, `_.set`, `_.unset`, `_.merge`, `_.uniq`)
are embedded as executable Lean functions over that type.
-/

/-- A JSON-compatible JavaScript value.  `vUndef` is JavaScript `undefined`,
kept distinct from `vNull` because the source distinguishes them
(`=== null` checks, `value || null` coercions).  Numbers are modelled as
integers; no claim involves fractional arithmetic. -/
inductive Value where
  | vNull : Value
  | vUndef : Value
  | vBool : Bool → Value
  | vNum : Int → Value
  | vStr : String → Value
  | vObj : List (String × Value) → Value
  | vArr : List Value → Value

open Value

/-- JavaScript truthiness, as used by `if (!data)`, `enrichmentData ? _ : _`
and `enrichmentData || null` in the source. -/
def truthy : Value → Bool
  | vNull => false
  | vUndef => false
  | vBool b => b
  | vNum n => decide (n ≠ 0)
  | vStr s => decide (s ≠ "")
  | vObj _ => true
  | vArr _ => true

example : truthy (vNum 0) = false := by decide
example : truthy (vObj []) = true := by decide

mutual

/-- Structural equality of `Value`s.  It models the SameValueZero comparison
used by `_.uniq` and `Map.get`: identifier values in this repository are
strings, null or undefined, for which structural equality coincides with
JavaScript `===`. -/
def beqV : Value → Value → Bool
  | vNull, vNull => true
  | vUndef, vUndef => true
  | vBool x, vBool y => x == y
  | vNum x, vNum y => x == y
  | vStr x, vStr y => x == y
  | vObj fs, vObj gs => beqFields fs gs
  | vArr xs, vArr ys => beqElems xs ys
  | _, _ => false

/-- Pairwise equality of object field lists. -/
def beqFields : List (String × Value) → List (String × Value) → Bool
  | [], [] => true
  | p :: ps, q :: qs => p.1 == q.1 && beqV p.2 q.2 && beqFields ps qs
  | _, _ => false

/-- Pairwise equality of array element lists. -/
def beqElems : List Value → List Value → Bool
  | [], [] => true
  | x :: xs, y :: ys => beqV x y && beqElems xs ys
  | _, _ => false

end

instance : BEq Value := ⟨beqV⟩

example : (vObj [("a", vNum 1)] == vObj [("a", vNum 1)]) = true := rfl
example : (vNull == vNum 0) = false := rfl

mutual

/-- Size of a `Value`, used as recursion fuel for `lodashMerge`. -/
def sizeV : Value → Nat
  | vObj fs => 1 + sizeFields fs
  | vArr xs => 1 + sizeElems xs
  | _ => 1

/-- Total size of an object field list. -/
def sizeFields : List (String × Value) → Nat
  | [] => 0
  | p :: ps => 1 + sizeV p.2 + sizeFields ps

/-- Total size of an array element list. -/
def sizeElems : List Value → Nat
  | [] => 0
  | x :: xs => 1 + sizeV x + sizeElems xs

end

/-- One segment of a concrete path.  The source builds concrete paths as
strings (`` `${cumulatedPath}[${index}]` `` for array elements and
`joinPath(base, key)` for fields) which lodash re-parses; we keep concrete
paths in the parsed form, where `[i]` is an `index` segment and a dotted key
is a `field` segment. -/
inductive PathSeg where
  | field : String → PathSeg
  | index : Nat → PathSeg
deriving DecidableEq

/-- `_.get(obj, key)` for a single plain key (the resolver only applies it to
non-array nodes and dot-free keys): field lookup on an object, `undefined` on
anything else, including null/undefined/scalar nodes. -/
def getField (obj : Value) (k : String) : Value :=
  match obj with
  | vObj fs =>
    match fs.find? (fun p => p.1 == k) with
    | some p => p.2
    | none => vUndef
  | _ => vUndef

/-- Is the value a JavaScript object in lodash's `isObject` sense (an object
or an array)? -/
def isObjLike : Value → Bool
  | vObj _ => true
  | vArr _ => true
  | _ => false

/-- Read one path segment, as lodash `baseGet` does: property access on an
object, index access on an array, `undefined` otherwise.  An `index` segment
on an object reads the decimal-string property, as lodash does after parsing
`[i]`. -/
def getSeg (c : Value) : PathSeg → Value
  | PathSeg.field k => getField c k
  | PathSeg.index i =>
    match c with
    | vArr xs => xs.getD i vUndef
    | vObj _ => getField c (Nat.repr i)
    | _ => vUndef

/-- `_.get(data, path)` over a parsed concrete path. -/
def getPath (c : Value) : List PathSeg → Value
  | [] => c
  | s :: rest => getPath (getSeg c s) rest

/-- Assign a field on an object field list: replace the first matching key in
place, append the key otherwise (JavaScript property-assignment ordering). -/
def setField : List (String × Value) → String → Value → List (String × Value)
  | [], k, v => [(k, v)]
  | p :: ps, k, v => if p.1 == k then (p.1, v) :: ps else p :: setField ps k v

/-- Assign an array index, padding with holes (`undefined`) beyond the end,
as JavaScript index assignment does. -/
def setIdx : List Value → Nat → Value → List Value
  | [], 0, v => [v]
  | [], n+1, v => vUndef :: setIdx [] n v
  | _ :: xs, 0, v => v :: xs
  | x :: xs, n+1, v => x :: setIdx xs n v

/-- One-segment assignment (`assignValue` in lodash `baseSet`).  Assigning a
field on an array attaches a non-index property, invisible to the JSON tree,
so the element list is unchanged. -/
def assignSeg (c : Value) (s : PathSeg) (v : Value) : Value :=
  match c, s with
  | vObj fs, PathSeg.field k => vObj (setField fs k v)
  | vObj fs, PathSeg.index i => vObj (setField fs (Nat.repr i) v)
  | vArr xs, PathSeg.index i => vArr (setIdx xs i v)
  | vArr xs, PathSeg.field _ => vArr xs
  | c, _ => c

/-- The fresh container lodash `baseSet` creates for a missing intermediate:
an array when the next segment is an index, an object otherwise. -/
def newChildFor : PathSeg → Value
  | PathSeg.index _ => vArr []
  | PathSeg.field _ => vObj []

/-- The recursive part of lodash `baseSet`: walk the path, replacing
non-object intermediates with fresh containers, and assign the final
segment. -/
def setGo : Value → List PathSeg → Value → Value
  | c, [], _ => c
  | c, [s], v => assignSeg c s v
  | c, s :: s2 :: rest, v =>
    let child := getSeg c s
    let child2 := if isObjLike child then child else newChildFor s2
    assignSeg c s (setGo child2 (s2 :: rest) v)

/-- `_.set(data, path, v)`: a non-object root is returned unchanged
(lodash `baseSet` starts with an `isObject` guard), otherwise walk-and-assign. -/
def setPath (c : Value) (p : List PathSeg) (v : Value) : Value :=
  if isObjLike c then setGo c p v else c

/-- Deletion of one final segment (`delete parent[key]`): removes an object
key; on an array it leaves a hole (`undefined`) at the index; a no-op on
anything else. -/
def deleteSeg (c : Value) (s : PathSeg) : Value :=
  match c, s with
  | vObj fs, PathSeg.field k => vObj (fs.filter (fun p => !(p.1 == k)))
  | vObj fs, PathSeg.index i => vObj (fs.filter (fun p => !(p.1 == Nat.repr i)))
  | vArr xs, PathSeg.index i => vArr (if i < xs.length then xs.set i vUndef else xs)
  | c, _ => c

/-- The recursive part of `_.unset(data, path)`: navigate to the parent of
the final segment and delete; if an intermediate is not an object the delete
is a no-op. -/
def unsetGo : Value → List PathSeg → Value
  | c, [] => c
  | c, [s] => deleteSeg c s
  | c, s :: s2 :: rest =>
    let child := getSeg c s
    if isObjLike child then assignSeg c s (unsetGo child (s2 :: rest)) else c

/-- `_.unset(data, path)`. -/
def unsetPath (c : Value) (p : List PathSeg) : Value := unsetGo c p

/-- Index-wise array merge, keeping whichever tail is longer. -/
def mergeArrWith (f : Value → Value → Value) : List Value → List Value → List Value
  | dx, [] => dx
  | [], sx => sx
  | d :: dx, s :: sx => f d s :: mergeArrWith f dx sx

/-- Nested `_.merge` of one source value into a destination slot, with
recursion fuel (`sizeV src` always suffices: each level descends into the
source).  Plain objects merge per key (a source `undefined` keeps an existing
destination value), arrays merge index-wise keeping the longer tail, and any
other source value overwrites unless it is `undefined`. -/
def mergeNode : Nat → Value → Value → Value
  | 0, _, s => s
  | fuel+1, d, s =>
    match d, s with
    | vObj df, vObj sf =>
      vObj (sf.foldl (fun acc kv =>
        match acc.find? (fun p => p.1 == kv.1) with
        | some pr => if kv.2 == vUndef then acc else setField acc kv.1 (mergeNode fuel pr.2 kv.2)
        | none => acc ++ [kv]) df)
    | vArr dx, vArr sx => vArr (mergeArrWith (mergeNode fuel) dx sx)
    | d, vUndef => d
    | _, s => s

/-- `_.merge(dst, src)` at top level: lodash iterates the source's own
enumerable keys, so a primitive source leaves the destination unchanged. -/
def lodashMerge (d s : Value) : Value :=
  match s with
  | vObj _ => mergeNode (sizeV s) d s
  | vArr _ => mergeNode (sizeV s) d s
  | _ => d

/-- Association-list lookup (JavaScript `Map.get` / object property read on
the string-keyed maps the aggregator builds). -/
def lookupAssoc (m : List (String × α)) (k : String) : Option α :=
  (m.find? (fun p => p.1 == k)).map (fun p => p.2)

/-- Association-list update (JavaScript `Map.set` / object property write):
replace in place when the key exists, append otherwise. -/
def setAssoc (m : List (String × α)) (k : String) (v : α) : List (String × α) :=
  match m.find? (fun p => p.1 == k) with
  | some _ => m.map (fun p => if p.1 == k then (p.1, v) else p)
  | none => m ++ [(k, v)]

/-- The source computes `existingIds` as `_.get(sourceToIds, sourceName, [])`
where `sourceToIds` is a JavaScript `Map`.  lodash `_.get` reads own
string-keyed properties, and a `Map` keeps its entries in internal slots, not
as properties, so for the plain source names used here the lookup always
misses and the default `[]` is returned — previously collected ids for the
same source are not seen. -/
def lodashGetOnMap (_m : List (String × List Value)) (_k : String) : List Value := []

/-- `_.uniq`, keeping the first occurrence of each element. -/
def lodashUniqGo [BEq α] (seen : List α) : List α → List α
  | [] => []
  | x :: xs => if seen.contains x then lodashUniqGo seen xs else x :: lodashUniqGo (x :: seen) xs

/-- `_.uniq`. -/
def lodashUniq [BEq α] (l : List α) : List α := lodashUniqGo [] l

/-- `path.split(".")[0]` — the characters of the pattern up to the first
dot. -/
def segOf (p : List Char) : List Char := p.takeWhile (fun c => !(c == '.'))

/-- `path.substring(currentKey.length + 1)` — the rest of the pattern after
the first dot (empty when there is no dot). -/
def restOf (p : List Char) : List Char := p.drop ((segOf p).length + 1)

/-- The result of resolving one pattern at one concrete location
(`PathDescriptor` in the source): the concrete path of the identifier field,
the identifier value found there, and the `objectAbsent` flag (`!obj`,
i.e. the node that should hold the field is falsy). -/
structure Descriptor where
  path : List PathSeg
  value : Value
  objectAbsent : Bool

/-- `_collectPathsAndValues(obj, path, cumulatedPath)`: if the node is an
array, recurse into every element appending its index to the concrete path;
a `*` segment is consumed without extending the concrete path; otherwise
read the field, emit a descriptor when no pattern remains, and recurse into
the field's value otherwise.  The `flattenDeep` of the source is built in:
array recursion concatenates the element results in order.  `fuel` bounds
the recursion depth; every recursive call shortens the pattern or descends
into the tree, so `pattern length + tree size + 1` always suffices. -/
def collectGoF : Nat → Value → List Char → List PathSeg → List Descriptor
  | 0, _, _, _ => []
  | fuel+1, obj, path, cum =>
    match obj with
    | vArr xs =>
      (xs.enum.map (fun p => collectGoF fuel p.2 path (cum ++ [PathSeg.index p.1]))).flatten
    | _ =>
      let currentKey := segOf path
      let restPath := restOf path
      if currentKey = ['*'] then collectGoF fuel obj restPath cum
      else
        let keyStr := String.mk currentKey
        let pathToKey := cum ++ [PathSeg.field keyStr]
        let objValue := getField obj keyStr
        if restPath.length = 0 then
          [⟨pathToKey, objValue, !truthy obj⟩]
        else collectGoF fuel objValue restPath pathToKey

/-- `collectPathsAndValues(obj, path)`. -/
def collectPathsAndValues (obj : Value) (path : String) : List Descriptor :=
  collectGoF (path.toList.length + sizeV obj + 1) obj path.toList []

example :
    collectPathsAndValues (vObj [("tasks", vArr [vObj [("aId", vStr "A")], vObj [("aId", vStr "B")]])])
      "tasks.*.aId"
      = [⟨[PathSeg.field "tasks", PathSeg.index 0, PathSeg.field "aId"], vStr "A", false⟩,
         ⟨[PathSeg.field "tasks", PathSeg.index 1, PathSeg.field "aId"], vStr "B", false⟩] := rfl

example :
    collectPathsAndValues (vObj [("a", vNull)]) "a.b"
      = [⟨[PathSeg.field "a", PathSeg.field "b"], vUndef, true⟩] := rfl

/-- `ToKeyModeOpts`: the target key name and the optional `omitNull` flag
(absent means false). -/
structure ToOpt where
  key : String
  omitNull : Bool

/-- `SingleAggregationOpts`: a pattern's options.  `toMode` embeds the `to`
field (`to` is reserved in Lean): present selects TO_KEY mode
(`getModeFromConfig`), absent selects MERGE mode. -/
structure AggOpt where
  source : String
  toMode : Option ToOpt
  removeIdKey : Bool
  transform : Option (Value → Value)

/-- `SingleEnrichmentConfig`: one injection-plan entry — the descriptor data
(`id`, `objectAbsent`, `idKeyPath`) combined with the pattern's options. -/
structure Enrichment where
  id : Value
  objectAbsent : Bool
  idKeyPath : List PathSeg
  opt : AggOpt

/-- An entity source in the style of `SimpleEntitySource`: `lookup` models
`prepare`'s bulk fetch combined with the id extraction — given the prepared
identifier list it returns the `(entityId, storedEntity)` pairs written into
the source's memory; `get(id)` then reads that memory. -/
structure Src where
  lookup : List Value → List (String × Value)

/-- A `SimpleEntitySource` over an in-memory entity table keyed by id, with
`lookupUsing` = filter by membership of the id in the requested list
(as the repository's tests do). -/
def simpleSrc (entities : List (String × Value)) : Src :=
  ⟨fun ids => entities.filter (fun p => ids.contains (vStr p.1))⟩

/-- `Map.get` on a source's memory: string ids hit stored entries, any other
id value (null, undefined, …) misses and yields `undefined`. -/
def srcGet (mem : List (String × Value)) : Value → Value
  | vStr s =>
    match lookupAssoc mem s with
    | some v => v
    | none => vUndef
  | _ => vUndef

/-- Is the value an array (`_.isArray`)? -/
def isArr : Value → Bool
  | vArr _ => true
  | _ => false

/-- Does the object node have the given own field? -/
def hasField (v : Value) (k : String) : Bool :=
  match v with
  | vObj fs => (fs.find? (fun p => p.1 == k)).isSome
  | _ => false

/-- Does one path segment resolve on this node (an existing object field or
an in-bounds array index)? -/
def hasSeg (c : Value) (s : PathSeg) : Bool :=
  match c, s with
  | vObj fs, PathSeg.field k => (fs.find? (fun p => p.1 == k)).isSome
  | vObj fs, PathSeg.index i => (fs.find? (fun p => p.1 == Nat.repr i)).isSome
  | vArr xs, PathSeg.index i => decide (i < xs.length)
  | _, _ => false

/-- Does the whole concrete path resolve, segment by segment?  This is the
state a plan entry's target path is in when its descriptor was produced with
`objectAbsent = false`. -/
def hasPath (c : Value) : List PathSeg → Bool
  | [] => true
  | s :: rest => hasSeg c s && hasPath (getSeg c s) rest

/-- The calls the aggregator makes into its entity sources, in order:
each `prepare(ids)` and each `get(id)`. -/
structure Trace where
  prepareCalls : List (String × List Value)
  getCalls : List (String × Value)

example : lodashUniq [vStr "a", vNull, vStr "a"] = [vStr "a", vNull] := rfl
example : getPath (vObj [("a", vArr [vNum 7])]) [PathSeg.field "a", PathSeg.index 0] = vNum 7 := rfl
example : setPath (vObj [("a", vNum 1)]) [PathSeg.field "a"] (vNum 2) = vObj [("a", vNum 2)] := rfl
example : unsetPath (vObj [("a", vNum 1), ("b", vNum 2)]) [PathSeg.field "a"] = vObj [("b", vNum 2)] := rfl

/-- Stable insert for `stableSortBy`: place `x` after every element with a
strictly smaller key and before every element with an equal or larger key
seen so far. -/
def insertStable (f : α → Nat) (x : α) : List α → List α
  | [] => [x]
  | y :: ys => if f y < f x then y :: insertStable f x ys else x :: y :: ys

/-- `_.sortBy(l, f)` — a stable sort by a numeric key (insertion sort from
the right preserves the relative order of equal keys). -/
def stableSortBy (f : α → Nat) : List α → List α
  | [] => []
  | x :: xs => insertStable f x (stableSortBy f xs)

example : stableSortBy (fun s => s.length) ["bb", "a", "cc", "d"] = ["a", "d", "bb", "cc"] := rfl

/-- `path.split(".").length` — with a one-character separator this is the
number of dots plus one. -/
def segCount (p : List Char) : Nat := p.count '.' + 1

/-- Strip a leading `*.` from a pattern
(`realPath.startsWith("*.") ? realPath.substring(2) : realPath`). -/
def stripLeadingStar : List Char → List Char
  | '*' :: '.' :: rest => rest
  | p => p

/-- `options[path]` — look up a pattern's options (patterns are unique keys
of the configuration object, so the default is never reached on real
configurations). -/
def findOpt (options : List (String × AggOpt)) (p : String) : AggOpt :=
  match lookupAssoc options p with
  | some o => o
  | none => ⟨"", none, false, none⟩

/-- `pathToEnrichmentConfigMap[concretePath].push(cfg)` with object-key
insertion ordering: append to the entry in place, or append a new key at the
end. -/
def addConfig (m : List (List PathSeg × List Enrichment)) (key : List PathSeg)
    (c : Enrichment) : List (List PathSeg × List Enrichment) :=
  match m.find? (fun p => p.1 == key) with
  | some _ => m.map (fun p => if p.1 == key then (p.1, p.2 ++ [c]) else p)
  | none => m ++ [(key, [c])]

/-- `_.dropRight(descriptor.path.split(".")).join(".")`: drop the final
dot-segment of the concrete path.  Descriptor paths always end in a `field`
segment (the resolver ends every path with `joinPath(cumulatedPath, key)`),
so this drops exactly the last parsed segment. -/
def concreteOf (p : List PathSeg) : List PathSeg := p.dropLast

/-- The id-collection and planning state of one `aggregate` call:
`sourceToIds` (a JavaScript `Map`) and `pathToEnrichmentConfigMap`
(a plain object). -/
structure Collect where
  sourceToIds : List (String × List Value)
  configMap : List (List PathSeg × List Enrichment)

/-- The body of the first loop of `aggregate` for one pattern: strip a
leading `*.`, resolve descriptors, store the deduplicated id list (note
`existingIds` comes from `_.get` on a `Map` — see `lodashGetOnMap`), and
append one plan entry per descriptor keyed by its concrete parent path. -/
def collectStep (data : Value) (options : List (String × AggOpt)) (acc : Collect)
    (path : String) : Collect :=
  let opt := findOpt options path
  let realPath := stripLeadingStar path.toList
  let existingIds := lodashGetOnMap acc.sourceToIds opt.source
  let ds := collectGoF (realPath.length + sizeV data + 1) data realPath []
  let collectedIds := lodashUniq (ds.map (fun d => d.value))
  let acc1 : Collect :=
    ⟨setAssoc acc.sourceToIds opt.source (lodashUniq (existingIds ++ collectedIds)),
     acc.configMap⟩
  ds.foldl (fun a d =>
    ⟨a.sourceToIds, addConfig a.configMap (concreteOf d.path) ⟨d.value, d.objectAbsent, d.path, opt⟩⟩)
    acc1

/-- The first loop of `aggregate`: iterate the configuration's patterns in
ascending segment-count order (a stable sort, so ties keep insertion
order). -/
def collectPhase (data : Value) (options : List (String × AggOpt)) : Collect :=
  (stableSortBy (fun p => segCount p.toList) (options.map (fun p => p.1))).foldl
    (collectStep data options) ⟨[], []⟩

/-- `SimpleEntitySource.prepare(ids)`: fetch the entities for the ids and
store each under its id. -/
def buildMemory (src : Src) (ids : List Value) : List (String × Value) :=
  (src.lookup ids).foldl (fun m p => setAssoc m p.1 p.2) []

/-- The preparation loop of `aggregate`: for each referenced source name (in
first-occurrence order), fail if it is not registered; skip it if it has no
collected ids; otherwise call `prepare(ids)` once, which populates the
source's memory.  Returns the list of prepare calls and the per-source
memories. -/
def prepPhase (sources : List (String × Src)) (s2i : List (String × List Value)) :
    List String → Except String (List (String × List Value) × List (String × List (String × Value)))
  | [] => Except.ok ([], [])
  | n :: rest =>
    match lookupAssoc sources n with
    | none => Except.error ("Entity source " ++ n ++ " is not registered.")
    | some src =>
      let ids := match lookupAssoc s2i n with
        | some ids => ids
        | none => []
      if ids.length = 0 then prepPhase sources s2i rest
      else
        match prepPhase sources s2i rest with
        | Except.error e => Except.error e
        | Except.ok (calls, mems) =>
          Except.ok ((n, ids) :: calls, (n, buildMemory src ids) :: mems)

/-- Apply the optional transform to the fetched entity
(`if (transform && _.isFunction(transform)) enrichmentData = transform(enrichmentData)`). -/
def applyTransform : Option (Value → Value) → Value → Value
  | some f, v => f v
  | none, v => v

/-- The MERGE-mode write of `aggregate` (lines 126–132): for a non-empty
target path, write back `merge(get(data, path), entity)` when the entity is
truthy and the unchanged `get(data, path)` otherwise; for the root, merge
into the root when the entity is truthy and keep the root otherwise. -/
def mergeInject (data : Value) (path : List PathSeg) (e : Value) : Value :=
  if path.isEmpty then
    if truthy e then lodashMerge data e else data
  else
    setPath data path (if truthy e then lodashMerge (getPath data path) e else getPath data path)

/-- The TO_KEY-mode write of `aggregate` (lines 133–142): set
`joinPath(path, to.key)` to `entity || null`, then remove that field again
when `omitNull` is set and the final value is null. -/
def toKeyInject (data : Value) (path : List PathSeg) (t : ToOpt) (e : Value) : Value :=
  let targetPath := path ++ [PathSeg.field t.key]
  let finalReplacement := if truthy e then e else vNull
  let d1 := setPath data targetPath (if truthy e then e else vNull)
  if t.omitNull && finalReplacement == vNull then unsetPath d1 targetPath else d1

/-- The memory of the named source after preparation (empty when the source
was never prepared — `SimpleEntitySource` starts with an empty memory). -/
def memOf (mems : List (String × List (String × Value))) (name : String) :
    List (String × Value) :=
  match lookupAssoc mems name with
  | some m => m
  | none => []

/-- Processing of one plan entry during injection: skip it entirely when
`objectAbsent`; otherwise fetch the entity from the prepared source memory
(`get(id)` is called unconditionally — its call is returned in the second
component), apply the optional transform, write in MERGE or TO_KEY mode, and
finally remove the identifier field when `removeIdKey` is set. -/
def injectEntry (mems : List (String × List (String × Value))) (data : Value)
    (path : List PathSeg) (cfg : Enrichment) : Value × List (String × Value) :=
  if cfg.objectAbsent then (data, [])
  else
    let fetched := srcGet (memOf mems cfg.opt.source) cfg.id
    let e := applyTransform cfg.opt.transform fetched
    let d1 := match cfg.opt.toMode with
      | none => mergeInject data path e
      | some t => toKeyInject data path t e
    let d2 := if cfg.opt.removeIdKey && !cfg.idKeyPath.isEmpty then unsetPath d1 cfg.idKeyPath else d1
    (d2, [(cfg.opt.source, cfg.id)])

/-- The injection loop of `aggregate`: iterate the plan map in insertion
order and every entry list in order, threading the mutated tree and
accumulating the `get` calls. -/
def injectPhase (mems : List (String × List (String × Value))) (data : Value)
    (cm : List (List PathSeg × List Enrichment)) : Value × List (String × Value) :=
  cm.foldl (fun acc entry =>
    entry.2.foldl (fun acc2 cfg =>
      let r := injectEntry mems acc2.1 entry.1 cfg
      (r.1, acc2.2 ++ r.2)) acc) (data, [])

/-- `Aggregator.aggregate(data, options)` over registered `sources`:
falsy data returns null immediately; otherwise collect ids and plan entries,
prepare every referenced source (failing on an unregistered name), and
inject.  The returned `Trace` records the `prepare` and `get` calls made
into the sources. -/
def aggregate (sources : List (String × Src)) (data : Value)
    (options : List (String × AggOpt)) : Except String (Value × Trace) :=
  if !truthy data then Except.ok (vNull, ⟨[], []⟩)
  else
    let entitySourceNames := lodashUniq (options.map (fun p => p.2.source))
    let col := collectPhase data options
    match prepPhase sources col.sourceToIds entitySourceNames with
    | Except.error e => Except.error e
    | Except.ok (calls, mems) =>
      let r := injectPhase mems data col.configMap
      Except.ok (r.1, ⟨calls, r.2⟩)

/-! ### Helper lemmas -/

theorem takeWhile_all (p : Char → Bool) :
    ∀ l : List Char, (∀ c ∈ l, p c = true) → l.takeWhile p = l
  | [], _ => rfl
  | c :: l, h => by
    have hc : p c = true := h c (List.mem_cons_self c l)
    simp [List.takeWhile_cons, hc,
      takeWhile_all p l (fun x hx => h x (List.mem_cons_of_mem c hx))]

theorem setField_self :
    ∀ (fs : List (String × Value)) (k : String) (pr : String × Value),
      fs.find? (fun p => p.1 == k) = some pr → setField fs k pr.2 = fs
  | [], _, _, h => by simp [List.find?] at h
  | p :: ps, k, pr, h => by
    cases hb : (p.1 == k) with
    | true =>
      simp only [List.find?_cons, hb] at h
      injection h with h2
      subst h2
      simp [setField, hb]
    | false =>
      simp only [List.find?_cons, hb] at h
      simp [setField, hb, setField_self ps k pr h]

theorem setIdx_getD_self :
    ∀ (xs : List Value) (i : Nat), i < xs.length → setIdx xs i (xs.getD i vUndef) = xs
  | [], _, h => absurd h (by simp)
  | _ :: _, 0, _ => rfl
  | x :: xs, i + 1, h => by
    have ih := setIdx_getD_self xs i (Nat.lt_of_succ_lt_succ (by simpa using h))
    simp only [List.getD, List.get?_eq_getElem?] at ih ⊢
    simp [setIdx, List.getElem?_cons_succ, ih]

theorem assignSeg_self : ∀ (c : Value) (s : PathSeg), hasSeg c s = true →
    assignSeg c s (getSeg c s) = c := by
  intro c s h
  cases c with
  | vObj fs =>
    cases s with
    | field k =>
      rw [hasSeg, Option.isSome_iff_exists] at h
      obtain ⟨pr, hpr⟩ := h
      simp [assignSeg, getSeg, getField, hpr, setField_self fs k pr hpr]
    | index i =>
      rw [hasSeg, Option.isSome_iff_exists] at h
      obtain ⟨pr, hpr⟩ := h
      simp [assignSeg, getSeg, getField, hpr, setField_self fs (Nat.repr i) pr hpr]
  | vArr xs =>
    cases s with
    | field k => simp [hasSeg] at h
    | index i =>
      rw [hasSeg, decide_eq_true_eq] at h
      have hset := setIdx_getD_self xs i h
      simp only [List.getD, List.get?_eq_getElem?] at hset
      simp [assignSeg, getSeg, List.getD, List.get?_eq_getElem?, hset]
  | vNull => cases s <;> simp [hasSeg] at h
  | vUndef => cases s <;> simp [hasSeg] at h
  | vBool b => cases s <;> simp [hasSeg] at h
  | vNum n => cases s <;> simp [hasSeg] at h
  | vStr t => cases s <;> simp [hasSeg] at h

theorem hasSeg_isObjLike : ∀ {c : Value} {s : PathSeg}, hasSeg c s = true →
    isObjLike c = true := by
  intro c s h
  cases c with
  | vObj fs => rfl
  | vArr xs => rfl
  | vNull => cases s <;> simp [hasSeg] at h
  | vUndef => cases s <;> simp [hasSeg] at h
  | vBool b => cases s <;> simp [hasSeg] at h
  | vNum n => cases s <;> simp [hasSeg] at h
  | vStr t => cases s <;> simp [hasSeg] at h

theorem setGo_getPath_self : ∀ (p : List PathSeg) (c : Value), hasPath c p = true →
    setGo c p (getPath c p) = c
  | [], _, _ => rfl
  | [s], c, h => by
    have hs : hasSeg c s = true := by
      rw [hasPath, Bool.and_eq_true] at h
      exact h.1
    simpa [setGo, getPath] using assignSeg_self c s hs
  | s :: s2 :: rest, c, h => by
    rw [hasPath, Bool.and_eq_true] at h
    obtain ⟨h1, h2⟩ := h
    have hs2 : hasSeg (getSeg c s) s2 = true := by
      rw [hasPath, Bool.and_eq_true] at h2
      exact h2.1
    have hobj := hasSeg_isObjLike hs2
    have ih := setGo_getPath_self (s2 :: rest) (getSeg c s) h2
    calc setGo c (s :: s2 :: rest) (getPath c (s :: s2 :: rest))
        = assignSeg c s (setGo (getSeg c s) (s2 :: rest) (getPath (getSeg c s) (s2 :: rest))) := by
          simp only [setGo, getPath, hobj, if_pos]
      _ = assignSeg c s (getSeg c s) := by rw [ih]
      _ = c := assignSeg_self c s h1

theorem setPath_getPath_self (c : Value) (p : List PathSeg) (h : hasPath c p = true) :
    setPath c p (getPath c p) = c := by
  cases p with
  | nil => simp [setPath, setGo]
  | cons s rest =>
    have h1 : hasSeg c s = true := by
      simp only [hasPath, Bool.and_eq_true] at h
      exact h.1
    have hobj := hasSeg_isObjLike h1
    simp only [setPath, hobj, if_pos]
    exact setGo_getPath_self (s :: rest) c h

theorem find?_setField_isSome :
    ∀ (fs : List (String × Value)) (k : String) (v : Value),
      ((setField fs k v).find? (fun p => p.1 == k)).isSome = true
  | [], k, v => by simp [setField, List.find?]
  | p :: ps, k, v => by
    by_cases hb : (p.1 == k) = true
    · simp [setField, hb, List.find?]
    · simp [setField, hb, List.find?, find?_setField_isSome ps k v]

theorem find?_filter_beq_none :
    ∀ (fs : List (String × Value)) (k : String),
      (fs.filter (fun p => !(p.1 == k))).find? (fun p => p.1 == k) = none
  | [], _ => rfl
  | p :: ps, k => by
    cases hb : (p.1 == k) with
    | true => simp [List.filter_cons, hb, find?_filter_beq_none ps k]
    | false => simp [List.filter_cons, hb, List.find?_cons, find?_filter_beq_none ps k]

theorem filter_not_beq_of_find?_none :
    ∀ (fs : List (String × Value)) (k : String),
      fs.find? (fun p => p.1 == k) = none → fs.filter (fun p => !(p.1 == k)) = fs
  | [], _, _ => rfl
  | p :: ps, k, h => by
    cases hb : (p.1 == k) with
    | true =>
      simp only [List.find?_cons, hb] at h
      simp at h
    | false =>
      simp only [List.find?_cons, hb] at h
      simp [List.filter_cons, hb, filter_not_beq_of_find?_none ps k h]

theorem stripLeadingStar_of_nodot (l : List Char) (h : ∀ c ∈ l, (c == '.') = false) :
    stripLeadingStar l = l := by
  unfold stripLeadingStar
  split
  · next rest =>
    have hdot := h '.' (by simp)
    simp at hdot
  · rfl

theorem collectGoF_single_seg (fuel : Nat) (obj : Value) (k : String) (cum : List PathSeg)
    (hdot : ∀ c ∈ k.toList, (c == '.') = false)
    (hstar : k.toList ≠ ['*'])
    (harr : isArr obj = false) :
    collectGoF (fuel + 1) obj k.toList cum
      = [⟨cum ++ [PathSeg.field k], getField obj k, !truthy obj⟩] := by
  have hseg : segOf k.toList = k.toList :=
    takeWhile_all _ k.toList (fun c hc => by simp [hdot c hc])
  have hrest : restOf k.toList = [] := by
    unfold restOf
    apply List.drop_eq_nil_of_le
    rw [hseg]
    omega
  have hseg2 : segOf k.data = k.data := hseg
  have hrest2 : restOf k.data = [] := hrest
  have hstar2 : k.data ≠ ['*'] := hstar
  have hmk2 : String.mk k.data = k := rfl
  cases obj
  case vArr xs => simp [isArr] at harr
  all_goals {
    rw [collectGoF]
    simp [hseg2, hrest2, hstar2, hmk2]
    try {
      intro xs hxs
      exact Value.noConfusion hxs } }

theorem mem_lodashUniqGo [BEq α] [LawfulBEq α] (a : α) :
    ∀ (l seen : List α), a ∈ l → a ∈ lodashUniqGo seen l ∨ a ∈ seen
  | [], _, h => absurd h (List.not_mem_nil a)
  | x :: xs, seen, h => by
    by_cases hc : seen.contains x = true
    · simp only [lodashUniqGo, hc, if_pos]
      rcases List.mem_cons.mp h with rfl | hxs
      · right
        simpa using hc
      · exact mem_lodashUniqGo a xs seen hxs
    · simp only [lodashUniqGo, hc, if_neg, Bool.false_eq_true, not_false_eq_true]
      rcases List.mem_cons.mp h with rfl | hxs
      · left
        exact List.mem_cons_self _ _
      · rcases mem_lodashUniqGo a xs (x :: seen) hxs with h1 | h2
        · left
          exact List.mem_cons_of_mem _ h1
        · rcases List.mem_cons.mp h2 with rfl | h3
          · left
            exact List.mem_cons_self _ _
          · right
            exact h3

theorem mem_lodashUniq [BEq α] [LawfulBEq α] {a : α} {l : List α} (h : a ∈ l) :
    a ∈ lodashUniq l := by
  rcases mem_lodashUniqGo a l [] h with h1 | h2
  · exact h1
  · exact absurd h2 (List.not_mem_nil a)

theorem value_obj_field_ne (s : String) (v w : Value) (h : v ≠ w) :
    vObj [(s, v)] ≠ vObj [(s, w)] := by
  intro he
  injection he with h1
  injection h1 with h2 h3
  exact h (congrArg Prod.snd h2)

theorem prepPhase_error_of_unregistered (sources : List (String × Src))
    (s2i : List (String × List Value)) :
    ∀ names : List String, (∃ n ∈ names, lookupAssoc sources n = none) →
      ∃ n ∈ names, lookupAssoc sources n = none ∧
        prepPhase sources s2i names
          = Except.error ("Entity source " ++ n ++ " is not registered.")
  | [], h => absurd h (by simp)
  | m :: rest, h => by
    cases hm : lookupAssoc sources m with
    | none =>
      exact ⟨m, List.mem_cons_self m rest, hm, by simp [prepPhase, hm]⟩
    | some src =>
      have hrest : ∃ n ∈ rest, lookupAssoc sources n = none := by
        obtain ⟨n, hn, hnone⟩ := h
        rcases List.mem_cons.mp hn with rfl | hn2
        · rw [hm] at hnone
          exact absurd hnone (by simp)
        · exact ⟨n, hn2, hnone⟩
      obtain ⟨n, hn, hnone, herr⟩ := prepPhase_error_of_unregistered sources s2i rest hrest
      refine ⟨n, List.mem_cons_of_mem m hn, hnone, ?_⟩
      simp only [prepPhase, hm]
      split
      · exact herr
      · rw [herr]


/-! ### Claims -/

/-- C1 (code bug): each entity source should be prepared exactly once with
the deduplicated union, over every pattern mapped to it, of the resolved
identifiers.  But `existingIds` is read with `_.get(sourceToIds, name, [])`
on a JavaScript `Map`, which always returns the default `[]` (see
`lodashGetOnMap`), so a later pattern for the same source overwrites the
earlier ids.  On the repository's own happy-path test fixture (`taskId` and
`childTaskId` both map to source `todo`), `todo` is prepared with only
`["T2"]` instead of the union `["T1","T2"]`; `get("T1")` then misses its
memory, the merge is skipped, and the result has no `task` field even
though the test asserts `result.task === 'Study'`. -/
theorem aggregate_prepare_loses_union :
    aggregate
      [("user", simpleSrc [("A", vObj [("id", vStr "A"), ("name", vStr "Andy")]),
                           ("B", vObj [("id", vStr "B"), ("name", vStr "Hai")])]),
       ("todo", simpleSrc [("T1", vObj [("id", vStr "T1"), ("task", vStr "Study")]),
                           ("T2", vObj [("id", vStr "T2"), ("task", vStr "Code")])])]
      (vObj [("assigneeId", vStr "A"), ("taskId", vStr "T1"), ("childTaskId", vStr "T2")])
      [("assigneeId", ⟨"user", some ⟨"assignee", false⟩, true, none⟩),
       ("taskId", ⟨"todo", none, true, none⟩),
       ("childTaskId", ⟨"todo", some ⟨"childTask", false⟩, true, none⟩)]
    = Except.ok
        (vObj [("assignee", vObj [("id", vStr "A"), ("name", vStr "Andy")]),
               ("childTask", vObj [("id", vStr "T2"), ("task", vStr "Code")])],
         ⟨[("user", [vStr "A"]), ("todo", [vStr "T2"])],
          [("user", vStr "A"), ("todo", vStr "T1"), ("todo", vStr "T2")]⟩)
  ∧ getField (vObj [("assignee", vObj [("id", vStr "A"), ("name", vStr "Andy")]),
               ("childTask", vObj [("id", vStr "T2"), ("task", vStr "Code")])]) "task"
      = vUndef :=
  ⟨rfl, rfl⟩

/-- C2: in MERGE mode a plan entry whose resolved entity is null (more
generally, falsy) leaves the node at the target path unchanged — the root
when the path is empty, and the existing child node otherwise, including an
element of a wildcard-iterated array (the path quantifies over index
segments).  The whole tree is returned unchanged, so every field the node
had persists and the node is never replaced by null. -/
theorem mergeInject_null_frame (data : Value) (path : List PathSeg) (e : Value)
    (he : truthy e = false) (hp : hasPath data path = true) :
    mergeInject data path e = data := by
  cases path with
  | nil => simp [mergeInject, he]
  | cons s rest =>
    simp only [mergeInject, List.isEmpty_cons, Bool.false_eq_true, if_false, he]
    exact setPath_getPath_self data (s :: rest) hp

/-- Witness for C2: merging a null entity into the populated child `user`
(and, through the same theorem, into an array element) changes nothing. -/
theorem mergeInject_null_frame_w :
    truthy vNull = false
  ∧ hasPath (vObj [("user", vObj [("uid", vStr "1"), ("x", vNum 5)])])
      [PathSeg.field "user"] = true
  ∧ mergeInject (vObj [("user", vObj [("uid", vStr "1"), ("x", vNum 5)])])
      [PathSeg.field "user"] vNull
      = vObj [("user", vObj [("uid", vStr "1"), ("x", vNum 5)])] :=
  ⟨rfl, rfl, mergeInject_null_frame _ _ _ rfl rfl⟩

/-- C3 counterexample: resolving the non-wildcard pattern `"a"` against an
object that exists but does not contain the field yields a descriptor with
`objectAbsent = false` (the claim says the flag is true), and for that
descriptor injection is NOT skipped: the trace shows `prepare([undefined])`
and `get(undefined)` were called and the TO_KEY field `x` was written. -/
theorem collect_missing_field_not_flagged :
    collectPathsAndValues (vObj [("b", vNum 1)]) "a"
      = [⟨[PathSeg.field "a"], vUndef, false⟩]
  ∧ aggregate [("user", simpleSrc [("A", vObj [("id", vStr "A")])])]
      (vObj [("b", vNum 1)])
      [("a", ⟨"user", some ⟨"x", false⟩, false, none⟩)]
      = Except.ok (vObj [("b", vNum 1), ("x", vNull)],
          ⟨[("user", [vUndef])], [("user", vUndef)]⟩) :=
  ⟨rfl, rfl⟩

/-- C3 (amended): the `objectAbsent` flag records a nullish (falsy) parent
container, not a merely missing field — for a dot-free non-wildcard pattern
`k` resolved against a non-array node the descriptor is exactly
`{path := [k], value := node[k], objectAbsent := !truthy node}` — and every
plan entry whose flag is true is skipped entirely during injection: the tree
is unchanged, no `get` call is made, and no identifier key is removed. -/
theorem objectAbsent_skips_injection :
    (∀ (mems : List (String × List (String × Value))) (data : Value)
        (path : List PathSeg) (cfg : Enrichment), cfg.objectAbsent = true →
        injectEntry mems data path cfg = (data, []))
  ∧ (∀ (obj : Value) (k : String), (∀ c ∈ k.toList, (c == '.') = false) →
        k.toList ≠ ['*'] → isArr obj = false →
        collectPathsAndValues obj k
          = [⟨[PathSeg.field k], getField obj k, !truthy obj⟩]) := by
  constructor
  · intro mems data path cfg h
    simp [injectEntry, h]
  · intro obj k hdot hstar harr
    unfold collectPathsAndValues
    exact collectGoF_single_seg (k.toList.length + sizeV obj) obj k [] hdot hstar harr

/-- Witness for C3 (amended): a flagged entry is skipped with no get call,
and a nullish container yields a flagged descriptor with an undefined
identifier. -/
theorem objectAbsent_skips_injection_w :
    injectEntry [] (vObj [("x", vNum 1)]) []
      ⟨vUndef, true, [PathSeg.field "a"], ⟨"user", none, false, none⟩⟩
      = (vObj [("x", vNum 1)], [])
  ∧ collectPathsAndValues vNull "b" = [⟨[PathSeg.field "b"], vUndef, true⟩] := by
  constructor
  · exact objectAbsent_skips_injection.1 [] _ [] _ rfl
  · exact objectAbsent_skips_injection.2 vNull "b" (by decide) (by decide) rfl

/-- C5 counterexample: with an empty configuration a falsy non-null scalar
root is not returned unchanged — `aggregate(0, {})` takes the
`if (!data) return null` path and returns null, not 0. -/
theorem aggregate_empty_config_falsy_root :
    aggregate [] (vNum 0) [] = Except.ok (vNull, ⟨[], []⟩) ∧ vNull ≠ vNum 0 :=
  ⟨rfl, fun h => Value.noConfusion h⟩

/-- C5 (amended): `aggregate(data, {})` returns the data unchanged for a
null root and for every truthy root (all objects and arrays, and non-falsy
scalars); a falsy non-null scalar root (0, "", false) is returned as null
instead. -/
theorem aggregate_empty_config_id (sources : List (String × Src)) (data : Value)
    (h : truthy data = true ∨ data = vNull) :
    aggregate sources data [] = Except.ok (data, ⟨[], []⟩) := by
  rcases h with ht | rfl
  · simp [aggregate, ht, collectPhase, stableSortBy, prepPhase, injectPhase,
      lodashUniq, lodashUniqGo]
  · rfl

/-- Witness for C5 (amended) at a concrete object root. -/
theorem aggregate_empty_config_id_w :
    (truthy (vObj [("a", vNum 1)]) = true ∨ (vObj [("a", vNum 1)] : Value) = vNull)
  ∧ aggregate [] (vObj [("a", vNum 1)]) [] = Except.ok (vObj [("a", vNum 1)], ⟨[], []⟩) :=
  ⟨Or.inl rfl, aggregate_empty_config_id [] _ (Or.inl rfl)⟩

/-- C4 counterexample: on data already aggregated with `removeIdKey: true`
under a TO_KEY configuration (`assignee` injected, `assigneeId` removed), a
second `aggregate` call with the same configuration is NOT a no-op: the
identifier resolves to undefined, `get(undefined)` misses, and the injected
`assignee` entity is overwritten with null. -/
theorem aggregate_second_call_not_noop :
    aggregate [("user", simpleSrc [("A", vObj [("id", vStr "A"), ("name", vStr "Andy")])])]
      (vObj [("assignee", vObj [("id", vStr "A"), ("name", vStr "Andy")])])
      [("assigneeId", ⟨"user", some ⟨"assignee", false⟩, true, none⟩)]
    = Except.ok (vObj [("assignee", vNull)], ⟨[("user", [vUndef])], [("user", vUndef)]⟩)
  ∧ vObj [("assignee", vNull)]
      ≠ vObj [("assignee", vObj [("id", vStr "A"), ("name", vStr "Andy")])] :=
  ⟨rfl, value_obj_field_ne _ _ _ (fun h => Value.noConfusion h)⟩

/-- C4 (amended): the second call is a no-op only for MERGE-mode entries —
for a single-pattern MERGE configuration over a plain root key whose
identifier field has already been removed, `aggregate` returns the object
unchanged (while still calling `prepare([undefined])` and
`get(undefined)`); the TO_KEY counterexample shows the claim fails in
general. -/
theorem aggregate_merge_removed_key_noop (sources : List (String × Src)) (name k : String)
    (src : Src) (fs : List (String × Value))
    (hreg : lookupAssoc sources name = some src)
    (hdot : ∀ c ∈ k.toList, (c == '.') = false)
    (hstar : k.toList ≠ ['*'])
    (hmiss : fs.find? (fun p => p.1 == k) = none) :
    aggregate sources (vObj fs) [(k, ⟨name, none, true, none⟩)]
      = Except.ok (vObj fs, ⟨[(name, [vUndef])], [(name, vUndef)]⟩) := by
  have hstrip : stripLeadingStar k.toList = k.toList := stripLeadingStar_of_nodot _ hdot
  have hget : getField (vObj fs) k = vUndef := by
    simp [getField, hmiss]
  have hcol : collectGoF (k.toList.length + sizeV (vObj fs) + 1) (vObj fs) k.toList []
      = [⟨[PathSeg.field k], vUndef, false⟩] := by
    rw [collectGoF_single_seg (k.toList.length + sizeV (vObj fs)) (vObj fs) k [] hdot hstar rfl]
    simp [hget, truthy]
  have h1 : collectPhase (vObj fs) [(k, (⟨name, none, true, none⟩ : AggOpt))]
      = ⟨[(name, [vUndef])],
         [([], [⟨vUndef, false, [PathSeg.field k], ⟨name, none, true, none⟩⟩])]⟩ := by
    have hstripD : stripLeadingStar k.data = k.data := hstrip
    have hcolD : collectGoF (k.data.length + sizeV (vObj fs) + 1) (vObj fs) k.data []
        = [⟨[PathSeg.field k], vUndef, false⟩] := hcol
    have hcolL : collectGoF (k.length + sizeV (vObj fs) + 1) (vObj fs) k.data []
        = [⟨[PathSeg.field k], vUndef, false⟩] := hcol
    unfold collectPhase
    simp only [List.map_cons, List.map_nil, stableSortBy, insertStable,
      List.foldl_cons, List.foldl_nil]
    simp [collectStep, hstrip, hstripD, hcol, hcolD, hcolL, findOpt, lookupAssoc, List.find?_cons,
      List.find?_nil, beq_self_eq_true, lodashGetOnMap, lodashUniq, lodashUniqGo,
      List.contains, List.elem, setAssoc, addConfig, concreteOf, List.dropLast]
  have h2 : prepPhase sources [(name, [vUndef])] [name]
      = Except.ok ([(name, [vUndef])], [(name, buildMemory src [vUndef])]) := by
    unfold prepPhase
    rw [hreg]
    simp [lookupAssoc, List.find?_cons, beq_self_eq_true, prepPhase]
  have h3 : injectPhase [(name, buildMemory src [vUndef])] (vObj fs)
      [([], [⟨vUndef, false, [PathSeg.field k], ⟨name, none, true, none⟩⟩])]
      = (vObj fs, [(name, vUndef)]) := by
    unfold injectPhase
    simp only [List.foldl_cons, List.foldl_nil]
    unfold injectEntry
    simp [memOf, lookupAssoc, List.find?_cons, beq_self_eq_true, srcGet, applyTransform,
      mergeInject, truthy, unsetPath, unsetGo, deleteSeg,
      filter_not_beq_of_find?_none fs k hmiss]
  unfold aggregate
  rw [if_neg (by simp [truthy])]
  simp only [List.map_cons, List.map_nil]
  rw [show lodashUniq [name] = [name] from rfl, h1]
  simp only [h2, h3]

/-- Witness for C4 (amended): a concrete key-removed MERGE re-aggregation is
a no-op on the data. -/
theorem aggregate_merge_removed_key_noop_w :
    aggregate [("todo", simpleSrc [("T1", vObj [("task", vStr "Study")])])]
      (vObj [("task", vStr "Study")])
      [("taskId", ⟨"todo", none, true, none⟩)]
      = Except.ok (vObj [("task", vStr "Study")], ⟨[("todo", [vUndef])], [("todo", vUndef)]⟩) :=
  aggregate_merge_removed_key_noop _ "todo" "taskId" _ _ rfl (by decide) (by decide) rfl

/-- C6 counterexample: for a plan entry whose identifier value is null, the
source's `get` IS called (the trace records `get(null)`); the claim says the
fetch is skipped for a null key.  The null entity then comes from the memory
miss, and under TO_KEY the field is written as null. -/
theorem aggregate_null_id_get_called :
    aggregate [("user", simpleSrc [("A", vObj [("id", vStr "A"), ("name", vStr "Andy")])])]
      (vObj [("assigneeId", vNull)])
      [("assigneeId", ⟨"user", some ⟨"assignee", false⟩, false, none⟩)]
    = Except.ok (vObj [("assigneeId", vNull), ("assignee", vNull)],
        ⟨[("user", [vNull])], [("user", vNull)]⟩)
  ∧ ([("user", vNull)] : List (String × Value)) ≠ [] :=
  ⟨rfl, fun h => List.noConfusion h⟩

/-- C6 (amended): `get(id)` is called for every plan entry that is not
skipped for an absent parent container — including entries whose identifier
is null or undefined; the entry's recorded get call is exactly
`(source, id)`.  A null entity value results from the source's memory miss,
not from skipping the fetch. -/
theorem injectEntry_always_gets (mems : List (String × List (String × Value)))
    (data : Value) (path : List PathSeg) (cfg : Enrichment)
    (h : cfg.objectAbsent = false) :
    (injectEntry mems data path cfg).2 = [(cfg.opt.source, cfg.id)] := by
  simp [injectEntry, h]

/-- Witness for C6 (amended): a null-identifier entry records its get call. -/
theorem injectEntry_always_gets_w :
    (injectEntry [] (vObj [("assigneeId", vNull)]) []
      ⟨vNull, false, [PathSeg.field "assigneeId"],
       ⟨"user", some ⟨"assignee", false⟩, false, none⟩⟩).2
      = [("user", vNull)] :=
  injectEntry_always_gets [] _ [] _ rfl

/-- C7 counterexample: the fetched entity for `X` is null, a transform is
configured, and the transform IS applied to the null entity: the injected
value is `transform(null) = {t: 1}`, not null as the claim states. -/
theorem aggregate_transform_applied_to_null :
    aggregate [("user", simpleSrc [("X", vNull)])]
      (vObj [("assigneeId", vStr "X")])
      [("assigneeId", ⟨"user", some ⟨"assignee", false⟩, false,
        some (fun _ => vObj [("t", vNum 1)])⟩)]
    = Except.ok (vObj [("assigneeId", vStr "X"), ("assignee", vObj [("t", vNum 1)])],
        ⟨[("user", [vStr "X"])], [("user", vStr "X")]⟩)
  ∧ vObj [("t", vNum 1)] ≠ vNull :=
  ⟨rfl, fun h => Value.noConfusion h⟩

/-- C7 (amended): a configured transform is applied to the fetched entity
unconditionally, including when the entity is null — for a TO_KEY entry
whose fetch yields null and whose transform returns a truthy value, the
value written under the target key is `transform(null)`, not null. -/
theorem injectEntry_transform_on_null (mems : List (String × List (String × Value)))
    (data : Value) (idv : Value) (kp : List PathSeg) (name tk : String)
    (f : Value → Value)
    (hfetch : srcGet (memOf mems name) idv = vNull)
    (htr : truthy (f vNull) = true) :
    injectEntry mems data [] ⟨idv, false, kp, ⟨name, some ⟨tk, false⟩, false, some f⟩⟩
      = (setPath data [PathSeg.field tk] (f vNull), [(name, idv)]) := by
  simp [injectEntry, hfetch, applyTransform, toKeyInject, htr]

/-- Witness for C7 (amended): with `user.get("X") = null` and a constant
object transform, the transform's output is injected. -/
theorem injectEntry_transform_on_null_w :
    srcGet (memOf [("user", [("X", vNull)])] "user") (vStr "X") = vNull
  ∧ truthy ((fun _ => vObj [("t", vNum 1)]) vNull) = true
  ∧ injectEntry [("user", [("X", vNull)])] (vObj [("assigneeId", vStr "X")]) []
      ⟨vStr "X", false, [PathSeg.field "assigneeId"],
       ⟨"user", some ⟨"assignee", false⟩, false, some (fun _ => vObj [("t", vNum 1)])⟩⟩
      = (setPath (vObj [("assigneeId", vStr "X")]) [PathSeg.field "assignee"]
          ((fun _ => vObj [("t", vNum 1)]) vNull), [("user", vStr "X")]) :=
  ⟨rfl, rfl, injectEntry_transform_on_null _ _ _ _ _ _ _ rfl rfl⟩

/-- C8 counterexample: the fetched entity for `X` is the number 0 — a
falsy, non-null value — and TO_KEY writes `entity || null`, i.e. null, under
the configured key instead of the entity itself. -/
theorem aggregate_tokey_zero_becomes_null :
    aggregate [("user", simpleSrc [("X", vNum 0)])]
      (vObj [("assigneeId", vStr "X")])
      [("assigneeId", ⟨"user", some ⟨"assignee", false⟩, false, none⟩)]
    = Except.ok (vObj [("assigneeId", vStr "X"), ("assignee", vNull)],
        ⟨[("user", [vStr "X"])], [("user", vStr "X")]⟩)
  ∧ vNull ≠ vNum 0 :=
  ⟨rfl, fun h => Value.noConfusion h⟩

theorem vNull_beq_vNull : (vNull == vNull) = true := rfl

theorem truthy_vNull : truthy vNull = false := rfl

theorem beq_vNull_false_of_truthy {e : Value} (h : truthy e = true) : (e == vNull) = false := by
  cases e with
  | vNull => simp [truthy] at h
  | vUndef => simp [truthy] at h
  | vBool b => rfl
  | vNum n => rfl
  | vStr s => rfl
  | vObj fs => rfl
  | vArr xs => rfl

/-- C8 (amended): in TO_KEY mode the field under the target path is set to
the entity when the entity is truthy and to null when it is falsy (null,
undefined, 0, "", false — not only null); when `omitNull` is set and the
final value is null (i.e. the entity is falsy) the field is removed instead.
The last conjunct observes the key's presence on an object node: present
exactly when `omitNull` is not set. -/
theorem toKeyInject_cases :
    (∀ (data : Value) (path : List PathSeg) (t : ToOpt) (e : Value), truthy e = true →
        toKeyInject data path t e = setPath data (path ++ [PathSeg.field t.key]) e)
  ∧ (∀ (data : Value) (path : List PathSeg) (t : ToOpt) (e : Value),
        truthy e = false → t.omitNull = false →
        toKeyInject data path t e = setPath data (path ++ [PathSeg.field t.key]) vNull)
  ∧ (∀ (data : Value) (path : List PathSeg) (t : ToOpt) (e : Value),
        truthy e = false → t.omitNull = true →
        toKeyInject data path t e
          = unsetPath (setPath data (path ++ [PathSeg.field t.key]) vNull)
              (path ++ [PathSeg.field t.key]))
  ∧ (∀ (fs : List (String × Value)) (t : ToOpt) (e : Value), truthy e = false →
        hasField (toKeyInject (vObj fs) [] t e) t.key = !t.omitNull) := by
  refine ⟨?_, ?_, ?_, ?_⟩
  · intro data path t e he
    simp [toKeyInject, he, beq_vNull_false_of_truthy he]
  · intro data path t e he ho
    simp [toKeyInject, he, ho, vNull_beq_vNull]
  · intro data path t e he ho
    simp [toKeyInject, he, ho, vNull_beq_vNull]
  · intro fs t e he
    cases ho : t.omitNull with
    | false =>
      simp [toKeyInject, he, ho, vNull_beq_vNull, setPath, isObjLike, setGo, assignSeg,
        hasField, find?_setField_isSome fs t.key vNull]
    | true =>
      simp [toKeyInject, he, ho, vNull_beq_vNull, setPath, isObjLike, setGo, assignSeg,
        hasField, unsetPath, unsetGo, deleteSeg,
        find?_filter_beq_none (setField fs t.key vNull) t.key]

/-- Witness for C8 (amended): a null entity without `omitNull` writes the
field as null; with `omitNull` the key is absent afterwards. -/
theorem toKeyInject_cases_w :
    toKeyInject (vObj [("assigneeId", vStr "X")]) [] ⟨"assignee", false⟩ vNull
      = setPath (vObj [("assigneeId", vStr "X")]) [PathSeg.field "assignee"] vNull
  ∧ hasField (toKeyInject (vObj [("a", vNum 1)]) [] ⟨"k", true⟩ vNull) "k" = false :=
  ⟨toKeyInject_cases.2.1 _ [] _ vNull rfl rfl,
   toKeyInject_cases.2.2.2 [("a", vNum 1)] ⟨"k", true⟩ vNull rfl⟩

/-- C9: when some pattern's source name has no registered entity source,
`aggregate` on truthy data fails with the configuration error naming an
unregistered source, rather than completing (a null data root short-circuits
to null before the check, which the spec documents separately). -/
theorem aggregate_unregistered_source_errors (sources : List (String × Src))
    (data : Value) (options : List (String × AggOpt))
    (ht : truthy data = true)
    (hbad : ∃ po ∈ options, lookupAssoc sources po.2.source = none) :
    ∃ name, lookupAssoc sources name = none ∧
      aggregate sources data options
        = Except.error ("Entity source " ++ name ++ " is not registered.") := by
  have hmem : ∃ n ∈ lodashUniq (options.map (fun p => p.2.source)),
      lookupAssoc sources n = none := by
    obtain ⟨po, hpo, hnone⟩ := hbad
    exact ⟨po.2.source, mem_lodashUniq (List.mem_map_of_mem _ hpo), hnone⟩
  obtain ⟨n, hn, hnone, herr⟩ :=
    prepPhase_error_of_unregistered sources (collectPhase data options).sourceToIds _ hmem
  refine ⟨n, hnone, ?_⟩
  unfold aggregate
  rw [if_neg (by simp [ht])]
  simp only [herr]

/-- Witness for C9: an aggregator with no registered sources rejects a
configuration referencing `user`. -/
theorem aggregate_unregistered_source_errors_w :
    truthy (vObj [("x", vNum 1)]) = true
  ∧ ∃ name, lookupAssoc ([] : List (String × Src)) name = none ∧
      aggregate [] (vObj [("x", vNum 1)]) [("a", ⟨"user", none, false, none⟩)]
        = Except.error ("Entity source " ++ name ++ " is not registered.") :=
  ⟨rfl, aggregate_unregistered_source_errors [] _ _ rfl
    ⟨("a", ⟨"user", none, false, none⟩), List.mem_cons_self _ _, rfl⟩⟩

/-- C10: in TO_KEY mode any falsy resolved entity — null, undefined, 0, "",
false — behaves exactly as a null entity: it is coerced to null before the
write (so a falsy scalar can never be injected as-is), and with `omitNull`
set the field is removed. -/
theorem toKeyInject_falsy_coerces :
    (∀ (data : Value) (path : List PathSeg) (t : ToOpt) (e : Value), truthy e = false →
        toKeyInject data path t e = toKeyInject data path t vNull)
  ∧ (∀ (fs : List (String × Value)) (t : ToOpt) (e : Value),
        truthy e = false → t.omitNull = true →
        hasField (toKeyInject (vObj fs) [] t e) t.key = false) := by
  constructor
  · intro data path t e he
    simp only [toKeyInject, he, truthy_vNull, Bool.false_eq_true, if_false, vNull_beq_vNull]
  · intro fs t e he ho
    simp [toKeyInject, he, ho, vNull_beq_vNull, setPath, isObjLike, setGo, assignSeg,
      hasField, unsetPath, unsetGo, deleteSeg,
      find?_filter_beq_none (setField fs t.key vNull) t.key]

/-- Witness for C10: the entity 0 is written as null, and an empty-string
entity under `omitNull` leaves no key. -/
theorem toKeyInject_falsy_coerces_w :
    truthy (vNum 0) = false
  ∧ toKeyInject (vObj [("a", vNum 1)]) [] ⟨"k", false⟩ (vNum 0)
      = toKeyInject (vObj [("a", vNum 1)]) [] ⟨"k", false⟩ vNull
  ∧ hasField (toKeyInject (vObj [("a", vNum 1)]) [] ⟨"k", true⟩ (vStr "")) "k" = false :=
  ⟨rfl, toKeyInject_falsy_coerces.1 _ [] _ _ rfl,
   toKeyInject_falsy_coerces.2 [("a", vNum 1)] ⟨"k", true⟩ (vStr "") rfl rfl⟩
